import Mathlib

/-
  Verification development for the deduplicated, reference-counted
  content store in src/backend (Django app "files").

  The embedding is a shallow model of:
    - files/models.py                (File model, increment_ref_count, decrement_ref_count)
    - files/services/file_service.py (FileManager: _compute_hash, upload_file,
                                      delete_file, get_storage_summary)
    - files/services/search_service.py (SearchService.search)
    - files/serializers.py           (FileSearchParamsSerializer validation)

  Conventions of the model:
    - Byte content is a List Nat; the content digest is modelled as the
      concatenation of the chunks fed to the running hasher (an injective
      stand-in for the sha256/md5 hex digest, which the code treats as an
      opaque dedup key).
    - Database rows are a List FileRec inside a DB value; uuid4 primary keys
      are modelled by a fresh-id counter, auto_now_add timestamps by a clock.
    - Every operation additionally returns the trace of record-store, blob
      and cache primitives it touched (List Event), so that claims about
      cache consultation and query counts are statable.  The Event type has
      cache constructors even though no line of the source emits them: their
      absence from every trace is exactly what the cache-coherence claim is
      about.
    - Errors are explicit: ModelErr for model-level exceptions
      (File.DoesNotExist, RuntimeError), FileError for the service-level
      exception taxonomy in files/exceptions.py.
-/

namespace FileVault

/-- A row of the files_file table (class File in files/models.py). -/
structure FileRec where
  id : Nat
  fileHash : List Nat
  size : Nat
  refCount : Nat
  version : Nat
  isDeleted : Bool
  uploadedAt : Nat
  originalFilename : List Char
  fileType : List Char
  deriving Repr, DecidableEq

/-- The record store: rows plus the fresh-id counter (uuid4) and the clock
behind the auto_now_add uploaded_at column. -/
structure DB where
  files : List FileRec
  nextId : Nat
  clock : Nat
  deriving Repr, DecidableEq

/-- A readable byte stream as FileManager sees it: its content, its declared
size attribute (file_obj.size, which the code trusts without comparing it to
the bytes actually read), and the current read position (tell/seek). -/
structure UploadStream where
  content : List Nat
  size : Nat
  pos : Nat
  deriving Repr, DecidableEq

/-- Exceptions raised by the model layer (models.py):
File.DoesNotExist and the RuntimeError of a failed optimistic update. -/
inductive ModelErr
  | doesNotExist
  | concurrent
  deriving Repr, DecidableEq

/-- The service-level error taxonomy of files/exceptions.py. -/
inductive FileError
  | integrityError
  | missingError
  | fileError
  deriving Repr, DecidableEq

/-- Primitive effects an operation performs, in program order.  The cache
constructors mirror the cache-coordinator contract; the source under
src/backend never performs them, which is itself a provable fact. -/
inductive Event
  | dbExistsQuery
  | dbFirst
  | blobWrite
  | dbInsert
  | dbGetByHash
  | dbGetByPk
  | rowLock (pk : Nat)
  | casUpdate (pk expectedVersion : Nat)
  | dbRefresh
  | dbCount
  | dbFetchPage
  | dbAggregate
  | cacheGet (key : List Char)
  | cacheSet (key : List Char)
  | cacheInvalidate (key : List Char)
  deriving Repr, DecidableEq

instance {ε : Type u} {α : Type v} [DecidableEq ε] [DecidableEq α] :
    DecidableEq (Except ε α) := fun x y =>
  match x, y with
  | Except.error a, Except.error b =>
    if h : a = b then isTrue (by rw [h])
    else isFalse (fun he => h (by injection he))
  | Except.ok a, Except.ok b =>
    if h : a = b then isTrue (by rw [h])
    else isFalse (fun he => h (by injection he))
  | Except.error _, Except.ok _ => isFalse (fun he => Except.noConfusion he)
  | Except.ok _, Except.error _ => isFalse (fun he => Except.noConfusion he)

/-- Chunk size of FileManager._compute_hash: 4 MiB. -/
def CHUNK_SIZE : Nat := 4 <<< 20

/-- One file_obj.read(chunk_size) at the given position. -/
def readChunk (content : List Nat) (pos : Nat) : List Nat :=
  (content.drop pos).take CHUNK_SIZE

/-- The read loop of _compute_hash: starting at pos, read chunks until an
empty read, feeding each chunk to the running hasher (acc).  failAt = some k
models an I/O error raised by the k-th read.  Returns the digest (or the
error) and the final stream position.  The fuel argument only bounds the
recursion; content.length + 1 is always enough (hashGo_none below). -/
def hashGo (content : List Nat) (failAt : Option Nat) :
    Nat → Nat → Nat → List Nat → Except Unit (List Nat) × Nat
  | 0, pos, _idx, _acc => (Except.error (), pos)
  | fuel + 1, pos, idx, acc =>
    if failAt = some idx then (Except.error (), pos)
    else
      let c := readChunk content pos
      if c = [] then (Except.ok acc, pos)
      else hashGo content failAt fuel (min (pos + CHUNK_SIZE) content.length) (idx + 1) (acc ++ c)

/-- FileManager._compute_hash: remember start_pos = tell(), seek(0), read
chunks to end of stream updating the running digest, and in the finally
block seek back to start_pos on every exit path. -/
def compute_hash (s : UploadStream) (failAt : Option Nat) :
    Except Unit (List Nat) × UploadStream :=
  let start_pos := s.pos
  let r := hashGo s.content failAt (s.content.length + 1) 0 0 []
  (r.1, { s with pos := start_pos })

/-- Modelled from the spec (section 4.1 ContentHasher), for comparison with
compute_hash: a hasher that reads from the current position to end of
stream, as the specification describes the code.  The code itself seeks to
0 first, so the two disagree whenever pos is nonzero. -/
def computeHashSpec (s : UploadStream) : List Nat :=
  s.content.drop s.pos

/-- The digest compute_hash returns on the non-failing path, as used by
upload_file (hash computation in the service never fails there). -/
def digestOf (s : UploadStream) : List Nat :=
  match (compute_hash s none).1 with
  | Except.ok d => d
  | Except.error _ => []

/-- File.objects.filter(pk=pk, version=version).update(...): apply the
mutation to every row matching both the primary key and the expected
version, returning the new table and the number of rows updated.  On
success Django also bumps version, which is folded into the mutation at
each call site exactly as in models.py. -/
def updateWhere (files : List FileRec) (pk ver : Nat) (f : FileRec → FileRec) :
    List FileRec × Nat :=
  (files.map (fun r => if r.id = pk ∧ r.version = ver then f r else r),
   (files.filter (fun r => r.id = pk ∧ r.version = ver)).length)

/-- File.objects.find by primary key (no is_deleted filter), as used by
select_for_update().get(pk=...) and refresh_from_db(). -/
def findByPk (db : DB) (pk : Nat) : Option FileRec :=
  db.files.find? (fun r => r.id = pk)

/-- File.objects.get(file_hash=h, is_deleted=False) / the active-by-hash
lookup of upload_file. -/
def findActiveByHash (db : DB) (h : List Nat) : Option FileRec :=
  db.files.find? (fun r => r.fileHash = h ∧ r.isDeleted = false)

/-- File.objects.get(pk=id, is_deleted=False), as used by delete_file and
get_file. -/
def findActiveByPk (db : DB) (pk : Nat) : Option FileRec :=
  db.files.find? (fun r => r.id = pk ∧ r.isDeleted = false)

/-- The mutation of the attach UPDATE: ref_count=F(ref_count)+1,
version=F(version)+1. -/
def incFun (r : FileRec) : FileRec :=
  { r with refCount := r.refCount + 1, version := r.version + 1 }

/-- The mutation of the decrement UPDATE: ref_count=F(ref_count)-1,
version=F(version)+1. -/
def decFun (r : FileRec) : FileRec :=
  { r with refCount := r.refCount - 1, version := r.version + 1 }

/-- The mutation of the soft-delete UPDATE: is_deleted=True,
version=F(version)+1 — and nothing else: ref_count is left untouched. -/
def softDeleteFun (r : FileRec) : FileRec :=
  { r with isDeleted := true, version := r.version + 1 }

/-- File.increment_ref_count (models.py): one conditional UPDATE guarded by
the in-memory version (memVer); if zero rows matched, raise RuntimeError
(ModelErr.concurrent); otherwise refresh_from_db.  There is no retry loop:
the single casUpdate event in the trace is the single attempt the code
makes. -/
def increment_ref_count (db : DB) (pk memVer : Nat) :
    Except ModelErr DB × List Event :=
  let u := updateWhere db.files pk memVer incFun
  if u.2 = 0 then
    (Except.error ModelErr.concurrent, [Event.casUpdate pk memVer])
  else
    (Except.ok { db with files := u.1 },
     [Event.casUpdate pk memVer, Event.dbRefresh])

/-- File.decrement_ref_count (models.py): lock the row, and depending on
the locked ref_count either decrement it, or mark the row deleted.  Note
that the soft-delete branch updates is_deleted and version only; it leaves
ref_count untouched. -/
def decrement_ref_count (db : DB) (pk memVer : Nat) :
    Except ModelErr DB × List Event :=
  match findByPk db pk with
  | none => (Except.error ModelErr.doesNotExist, [Event.rowLock pk])
  | some obj =>
    if obj.refCount > 1 then
      let u := updateWhere db.files pk memVer decFun
      if u.2 = 0 then
        (Except.error ModelErr.concurrent,
         [Event.rowLock pk, Event.casUpdate pk memVer])
      else
        (Except.ok { db with files := u.1 },
         [Event.rowLock pk, Event.casUpdate pk memVer, Event.dbRefresh])
    else
      let u := updateWhere db.files pk memVer softDeleteFun
      if u.2 = 0 then
        (Except.error ModelErr.concurrent,
         [Event.rowLock pk, Event.casUpdate pk memVer])
      else
        (Except.ok { db with files := u.1 },
         [Event.rowLock pk, Event.casUpdate pk memVer, Event.dbRefresh])

/-- The row built by upload_file before new_file.save(): File(id=uuid4(),
original_filename, file_type, size from the stream attribute, file_hash,
ref_count=1), with the column defaults version=0, is_deleted=False and
auto_now_add uploaded_at.  Because the id is assigned explicitly, the
pk-is-empty branch of File.save never fires and size stays the declared
stream size. -/
def newRecord (db : DB) (digest : List Nat) (size : Nat)
    (filename ftype : List Char) : FileRec :=
  { id := db.nextId
    fileHash := digest
    size := size
    refCount := 1
    version := 0
    isDeleted := false
    uploadedAt := db.clock
    originalFilename := filename
    fileType := ftype }

/-- FileManager.upload_file: hash the stream, log whether an active
duplicate exists (a query with no behavioral effect), then always attempt
the INSERT; the file_hash unique constraint spans all rows including
soft-deleted ones, so the INSERT raises IntegrityError whenever any row
carries the same hash.  On IntegrityError, re-read the active record by
hash: if absent raise FileIntegrityError, otherwise increment its
ref_count (RuntimeError becomes FileError) and return it with
is_new=False.  Returns (result, database after, event trace). -/
def upload_file (db : DB) (s : UploadStream) (filename ftype : List Char) :
    Except FileError (FileRec × Bool) × DB × List Event :=
  let file_hash := digestOf s
  let size := s.size
  let existsEv :=
    if (db.files.filter (fun r => r.fileHash = file_hash ∧ r.isDeleted = false)) ≠ []
    then [Event.dbExistsQuery, Event.dbFirst] else [Event.dbExistsQuery]
  if _hdup : ∃ r ∈ db.files, r.fileHash = file_hash then
    -- new_file.save() violates the unique constraint: IntegrityError path
    let ev0 := existsEv ++ [Event.blobWrite, Event.dbInsert, Event.dbGetByHash]
    match findActiveByHash db file_hash with
    | none => (Except.error FileError.integrityError, db, ev0)
    | some existing =>
      match increment_ref_count db existing.id existing.version with
      | (Except.error _, ev1) => (Except.error FileError.fileError, db, ev0 ++ ev1)
      | (Except.ok db1, ev1) =>
        (Except.ok ((findByPk db1 existing.id).getD existing, false), db1, ev0 ++ ev1)
  else
    let rec1 := newRecord db file_hash size filename ftype
    (Except.ok (rec1, true),
     { files := db.files ++ [rec1], nextId := db.nextId + 1, clock := db.clock + 1 },
     existsEv ++ [Event.blobWrite, Event.dbInsert])

/-- FileManager.delete_file: fetch the active row (FileMissingError if
absent or already soft-deleted, leaving the store untouched), call
decrement_ref_count, and return the refreshed is_deleted flag; a
RuntimeError from the optimistic update rolls the transaction back and
surfaces as FileError. -/
def delete_file (db : DB) (pk : Nat) :
    Except FileError Bool × DB × List Event :=
  match findActiveByPk db pk with
  | none => (Except.error FileError.missingError, db, [Event.dbGetByPk])
  | some f =>
    match decrement_ref_count db f.id f.version with
    | (Except.ok db1, ev) =>
      (Except.ok (((findByPk db1 pk).getD f).isDeleted), db1, Event.dbGetByPk :: ev)
    | (Except.error _, ev) =>
      (Except.error FileError.fileError, db, Event.dbGetByPk :: ev)

/-- Round half to even, the rounding mode of the Python builtin round;
the float representation of the intermediate quotient is abstracted to the
exact rational. -/
def roundHalfEven (q : ℚ) : ℤ :=
  let f : ℤ := ⌊q⌋
  let r : ℚ := q - f
  if r < 1/2 then f
  else if 1/2 < r then f + 1
  else if f % 2 = 0 then f else f + 1

/-- round(x, 2) of the Python builtin, on exact rationals. -/
def round2 (q : ℚ) : ℚ :=
  (roundHalfEven (q * 100) : ℚ) / 100

/-- The payload of FileManager.get_storage_summary. -/
structure Summary where
  total_file_size : Nat
  deduplicated_storage : Nat
  storage_saved : Int
  savings_percentage : ℚ
  deriving Repr, DecidableEq

/-- The active rows, i.e. File.objects.filter(is_deleted=False). -/
def activeFiles (db : DB) : List FileRec :=
  db.files.filter (fun r => r.isDeleted = false)

/-- FileManager.get_storage_summary: aggregate Sum(size * ref_count) and
Sum(size) over active rows (None coalesced to 0 on an empty queryset),
subtract, and round the percentage to two decimals, with 0 substituted
when the total is zero.  No cache is consulted or written and the method
takes no useCache argument: it recomputes on every call. -/
def get_storage_summary (db : DB) : Summary × List Event :=
  let total : Nat := (activeFiles db).foldl (fun a r => a + r.size * r.refCount) 0
  let dedup : Nat := (activeFiles db).foldl (fun a r => a + r.size) 0
  let saved : Int := (total : Int) - (dedup : Int)
  let pct : ℚ := round2 (if total = 0 then 0 else (saved : ℚ) / (total : ℚ) * 100)
  ({ total_file_size := total
     deduplicated_storage := dedup
     storage_saved := saved
     savings_percentage := pct }, [Event.dbAggregate])

/-- Python str.strip on a character list. -/
def stripChars (l : List Char) : List Char :=
  ((l.dropWhile Char.isWhitespace).reverse.dropWhile Char.isWhitespace).reverse

/-- Python str.lower on a character list. -/
def lowerList (l : List Char) : List Char := l.map Char.toLower

/-- Substring test (the SQL LIKE behind icontains, after lowercasing). -/
def containsSub (needle : List Char) : List Char → Bool
  | [] => needle.isPrefixOf []
  | c :: t => needle.isPrefixOf (c :: t) || containsSub needle t

/-- Validated query parameters of FileSearchParamsSerializer; dates are
modelled as day numbers, timestamps as seconds, with uploadedDate the
uploaded_at__date coercion. -/
structure SearchParams where
  filename : Option (List Char)
  file_extension : Option (List Char)
  min_size : Option Nat
  max_size : Option Nat
  start_date : Option Nat
  end_date : Option Nat
  page : Nat
  page_size : Nat
  deriving Repr, DecidableEq

def DAY_SECONDS : Nat := 86400

/-- uploaded_at__date: the calendar date of the upload timestamp. -/
def uploadedDate (r : FileRec) : Nat := r.uploadedAt / DAY_SECONDS

/-- SearchService.search filename step: if params.get("filename") is
truthy, filter original_filename__icontains. -/
def filterFilename (p : SearchParams) (l : List FileRec) : List FileRec :=
  match p.filename with
  | none => l
  | some t =>
    if t = [] then l
    else l.filter (fun r => containsSub (lowerList t) (lowerList r.originalFilename))

/-- SearchService.search extension step: lowercase and strip the requested
extension, then filter original_filename__iendswith of dot-extension. -/
def filterByExt (p : SearchParams) (l : List FileRec) : List FileRec :=
  match p.file_extension with
  | none => l
  | some e =>
    if e = [] then l
    else
      let ext := stripChars (lowerList e)
      l.filter (fun r => List.isSuffixOf ('.' :: ext) (lowerList r.originalFilename))

/-- SearchService.search size steps: size__gte then size__lte, each only
when the bound is not None. -/
def filterSizes (p : SearchParams) (l : List FileRec) : List FileRec :=
  let l1 := match p.min_size with
    | none => l
    | some m => l.filter (fun r => m ≤ r.size)
  match p.max_size with
  | none => l1
  | some mx => l1.filter (fun r => r.size ≤ mx)

/-- SearchService.search date steps: uploaded_at__date__gte then
uploaded_at__date__lte. -/
def filterDates (p : SearchParams) (l : List FileRec) : List FileRec :=
  let l1 := match p.start_date with
    | none => l
    | some sd => l.filter (fun r => sd ≤ uploadedDate r)
  match p.end_date with
  | none => l1
  | some ed => l1.filter (fun r => uploadedDate r ≤ ed)

/-- The filtered queryset of SearchService.search before ordering and
pagination: active rows through the four filter steps in program order. -/
def queryRecords (db : DB) (p : SearchParams) : List FileRec :=
  filterDates p (filterSizes p (filterByExt p (filterFilename p (activeFiles db))))

/-- order_by("-uploaded_at"): most recent first. -/
def byRecency (a b : FileRec) : Prop := b.uploadedAt ≤ a.uploadedAt

instance : DecidableRel byRecency :=
  fun a b => Nat.decLe b.uploadedAt a.uploadedAt

instance : IsTotal FileRec byRecency :=
  ⟨fun a b => Nat.le_total b.uploadedAt a.uploadedAt⟩

instance : IsTrans FileRec byRecency :=
  ⟨fun _ _ _ hab hbc => le_trans hbc hab⟩

/-- The item dict built for each row of the page. -/
structure SearchItem where
  id : Nat
  original_filename : List Char
  file_type : List Char
  file_size : Nat
  uploaded_at : Nat
  ref_count : Nat
  deriving Repr, DecidableEq

def toItem (r : FileRec) : SearchItem :=
  { id := r.id
    original_filename := r.originalFilename
    file_type := r.fileType
    file_size := r.size
    uploaded_at := r.uploadedAt
    ref_count := r.refCount }

/-- The response dict of SearchService.search. -/
structure SearchResult where
  items : List SearchItem
  total : Nat
  page : Nat
  page_size : Nat
  source : List Char
  deriving Repr, DecidableEq

/-- SearchService.search: filter, count, order by uploaded_at descending,
slice [offset : offset + page_size] with offset = (page - 1) * page_size,
and project the items.  The service is database-only: its trace is the
count query and the page fetch, and it touches no cache. -/
def search (db : DB) (p : SearchParams) : SearchResult × List Event :=
  let qs := queryRecords db p
  let total := qs.length
  let offset := (p.page - 1) * p.page_size
  let results := ((List.insertionSort byRecency qs).drop offset).take p.page_size
  ({ items := results.map toItem
     total := total
     page := p.page
     page_size := p.page_size
     source := "database".toList }, [Event.dbCount, Event.dbFetchPage])

/-- Lift a predicate over an optional field (vacuously true on None). -/
def optAll (P : α → Prop) : Option α → Prop
  | none => True
  | some a => P a

instance (P : α → Prop) [DecidablePred P] :
    (o : Option α) → Decidable (optAll P o)
  | none => isTrue trivial
  | some a => inferInstanceAs (Decidable (P a))

/-- What FileSearchParamsSerializer guarantees about validated_data:
filename at least 2 characters and not blank (blank strings are normalized
to None), extension not blank, min_size less than or equal to max_size and
start_date less than or equal to end_date when both bounds are present,
page at least 1, and page_size between 1 and the configured maximum 100. -/
def ValidParams (p : SearchParams) : Prop :=
  optAll (fun t => 2 ≤ t.length ∧ stripChars t ≠ []) p.filename ∧
  optAll (fun e => e ≠ [] ∧ stripChars e ≠ []) p.file_extension ∧
  optAll (fun m => optAll (fun mx => m ≤ mx) p.max_size) p.min_size ∧
  optAll (fun sd => optAll (fun ed => sd ≤ ed) p.end_date) p.start_date ∧
  1 ≤ p.page ∧ 1 ≤ p.page_size ∧ p.page_size ≤ 100

/-- A client-visible mutation of the store. -/
inductive Op
  | upload (content : List Nat) (declaredSize : Nat) (fn ft : List Char)
  | del (pk : Nat)

/-- The state transition of one mutation (result and trace discarded). -/
def applyOp (db : DB) : Op → DB
  | Op.upload c sz fn ft => (upload_file db ⟨c, sz, 0⟩ fn ft).2.1
  | Op.del pk => (delete_file db pk).2.1

def emptyDB : DB := { files := [], nextId := 0, clock := 0 }

/-- The store reached from empty by a sequence of uploads and deletes. -/
def runOps (ops : List Op) : DB := ops.foldl applyOp emptyDB

/-- Primary keys are pairwise distinct (uuid4 collisions excluded). -/
def IdUnique (db : DB) : Prop :=
  db.files.Pairwise (fun a b => a.id ≠ b.id)

/-- Every stored id is below the fresh-id counter. -/
def IdsBelow (db : DB) : Prop :=
  ∀ r ∈ db.files, r.id < db.nextId

/-- Cache-coordinator primitives, as opposed to record-store or blob
primitives. -/
def isCacheEvent : Event → Bool
  | Event.cacheGet _ => true
  | Event.cacheSet _ => true
  | Event.cacheInvalidate _ => true
  | _ => false

/-- Optimistic compare-and-update attempts visible in a trace. -/
def isCasEvent : Event → Bool
  | Event.casUpdate _ _ => true
  | _ => false

/-- The conjunction of the supplied search filters, as the spec states
them: case-insensitive filename substring, case-insensitive exact
extension (the filename ends with dot plus the extension), inclusive size
range, inclusive upload-date range.  Absent filters constrain nothing. -/
def MatchesFilters (p : SearchParams) (r : FileRec) : Prop :=
  optAll (fun t => containsSub (lowerList t) (lowerList r.originalFilename) = true)
    p.filename ∧
  optAll (fun e =>
      List.isSuffixOf ('.' :: stripChars (lowerList e)) (lowerList r.originalFilename) = true)
    p.file_extension ∧
  optAll (fun m => m ≤ r.size) p.min_size ∧
  optAll (fun mx => r.size ≤ mx) p.max_size ∧
  optAll (fun sd => sd ≤ uploadedDate r) p.start_date ∧
  optAll (fun ed => uploadedDate r ≤ ed) p.end_date

/-- The internal invariant of reachable stores: distinct primary keys, ids
below the fresh-id counter, every row keeps ref_count at least 1, and a
soft-deleted row keeps the ref_count value 1 it died with (the code never
writes 0). -/
def StoreInv (db : DB) : Prop :=
  IdUnique db ∧ IdsBelow db ∧
  ∀ r ∈ db.files, 1 ≤ r.refCount ∧ (r.isDeleted = true → r.refCount = 1)

/-- Claim C1 bundle: uploading the same stream twice in a row yields the
same record id, ref_count 1 then 2, is_new true then false. -/
def UploadTwice (db : DB) (s : UploadStream) (fn ft : List Char) : Prop :=
  ∃ rec1 rec2,
    (upload_file db s fn ft).1 = Except.ok (rec1, true) ∧
    rec1.refCount = 1 ∧
    (upload_file ((upload_file db s fn ft).2.1) s fn ft).1 = Except.ok (rec2, false) ∧
    rec2.id = rec1.id ∧
    rec2.refCount = 2

/-- Claim C3 bundle: when the INSERT hits the duplicate-hash constraint,
the fallback re-read decides everything: an active record is attached and
returned with is_new false, no active record surfaces FileIntegrityError
and leaves the store untouched. -/
def RaceFallback (db : DB) (s : UploadStream) (fn ft : List Char) : Prop :=
  (findActiveByHash db (digestOf s) = none →
    (upload_file db s fn ft).1 = Except.error FileError.integrityError ∧
    (upload_file db s fn ft).2.1 = db) ∧
  (∀ ex, findActiveByHash db (digestOf s) = some ex →
    ∃ rec, (upload_file db s fn ft).1 = Except.ok (rec, false) ∧
      rec.id = ex.id ∧ rec.refCount = ex.refCount + 1)

/-- Claim C10 bundle: delete_file raises FileMissingError exactly on the
absence of an active row (store untouched), otherwise decrements or
soft-deletes and returns whether the record became deleted. -/
def DeleteContract (db : DB) (pk : Nat) : Prop :=
  (findActiveByPk db pk = none →
    delete_file db pk = (Except.error FileError.missingError, db, [Event.dbGetByPk])) ∧
  (∀ f, findActiveByPk db pk = some f →
    (1 < f.refCount →
      (delete_file db pk).1 = Except.ok false ∧
      findByPk (delete_file db pk).2.1 pk =
        some { f with refCount := f.refCount - 1, version := f.version + 1 }) ∧
    (f.refCount ≤ 1 →
      (delete_file db pk).1 = Except.ok true ∧
      findByPk (delete_file db pk).2.1 pk =
        some { f with isDeleted := true, version := f.version + 1 }))

/-- Claim C7 bundle (amended): the hasher reads the whole content from
position 0, and the stream handed back is bit-for-bit the input stream on
every exit path. -/
def HasherContract (s : UploadStream) (failAt : Option Nat) : Prop :=
  (compute_hash s failAt).2 = s ∧
  (compute_hash s none).1 = Except.ok s.content

/-- Claim C8 bundle (amended): the summary fields as sums over active
rows, with the percentage rounded to two decimals and zero-guarded. -/
def SummaryContract (db : DB) : Prop :=
  (get_storage_summary db).1.total_file_size =
    ((activeFiles db).map (fun r => r.size * r.refCount)).sum ∧
  (get_storage_summary db).1.deduplicated_storage =
    ((activeFiles db).map (fun r => r.size)).sum ∧
  (get_storage_summary db).1.storage_saved =
    ((get_storage_summary db).1.total_file_size : Int) -
      ((get_storage_summary db).1.deduplicated_storage : Int) ∧
  (get_storage_summary db).1.savings_percentage =
    (if (get_storage_summary db).1.total_file_size = 0 then 0
     else round2 (((get_storage_summary db).1.storage_saved : ℚ) /
       ((get_storage_summary db).1.total_file_size : ℚ) * 100)) ∧
  (db.files = [] → (get_storage_summary db).1 =
    { total_file_size := 0, deduplicated_storage := 0,
      storage_saved := 0, savings_percentage := 0 })

/-- Claim C9 bundle: the filtered set is exactly the active rows matching
the filter conjunction; the page is the 1-indexed slice of that set sorted
most recent first; the page never exceeds page_size, which validation caps
at 100. -/
def SearchContract (db : DB) (p : SearchParams) : Prop :=
  (∀ r, r ∈ queryRecords db p ↔
    (r ∈ db.files ∧ r.isDeleted = false ∧ MatchesFilters p r)) ∧
  List.Perm (List.insertionSort byRecency (queryRecords db p)) (queryRecords db p) ∧
  (search db p).1.items =
    (((List.insertionSort byRecency (queryRecords db p)).drop
        ((p.page - 1) * p.page_size)).take p.page_size).map toItem ∧
  List.Sorted (fun a b : SearchItem => b.uploaded_at ≤ a.uploaded_at)
    (search db p).1.items ∧
  (search db p).1.total = (queryRecords db p).length ∧
  (search db p).1.items.length ≤ p.page_size ∧
  p.page_size ≤ 100 ∧
  (search db p).1.page = p.page ∧
  (search db p).1.page_size = p.page_size

/- Concrete fixtures used by counterexamples and witnesses. -/

/-- A store holding one active 1024-byte record with content hash [1,2,3]. -/
def dbSize : DB :=
  { files := [{ id := 0, fileHash := [1, 2, 3], size := 1024, refCount := 1,
                version := 0, isDeleted := false, uploadedAt := 0,
                originalFilename := "old.bin".toList, fileType := "bin".toList }],
    nextId := 1, clock := 1 }

/-- A stream with the same content as the record in dbSize but a declared
size attribute of 1124 bytes. -/
def sMismatch : UploadStream := { content := [1, 2, 3], size := 1124, pos := 0 }

/-- A store holding one record at version 5 (a concurrent writer bumped it
past the in-memory version 3 a caller still holds). -/
def dbStale : DB :=
  { files := [{ id := 0, fileHash := [9], size := 1, refCount := 2,
                version := 5, isDeleted := false, uploadedAt := 0,
                originalFilename := "a.txt".toList, fileType := "txt".toList }],
    nextId := 1, clock := 1 }

/-- A store holding one active record of size 1 shared by 3 owners: the
exact savings percentage 200/3 is not representable in two decimals. -/
def dbThirds : DB :=
  { files := [{ id := 0, fileHash := [4], size := 1, refCount := 3,
                version := 2, isDeleted := false, uploadedAt := 0,
                originalFilename := "a.txt".toList, fileType := "txt".toList }],
    nextId := 1, clock := 1 }

/-- A store whose only record bearing hash [5] is soft-deleted. -/
def dbTombstone : DB :=
  { files := [{ id := 0, fileHash := [5], size := 1, refCount := 1,
                version := 1, isDeleted := true, uploadedAt := 0,
                originalFilename := "a.txt".toList, fileType := "txt".toList }],
    nextId := 1, clock := 1 }

/-- A stream with the content whose hash the soft-deleted record holds. -/
def sTombstone : UploadStream := { content := [5], size := 1, pos := 0 }

/-- The position-1 stream distinguishing read-from-start from
read-from-current-position. -/
def sMidPos : UploadStream := { content := [7, 8], size := 2, pos := 1 }

/-- Upload one byte then delete it: the canonical reachable store with a
soft-deleted record. -/
def opsOneShot : List Op :=
  [Op.upload [42] 1 "a.txt".toList "txt".toList, Op.del 0]

/-- The store after a single upload of [42]. -/
def dbOne : DB := runOps [Op.upload [42] 1 "a.txt".toList "txt".toList]

/-- Three active records of distinct sizes and upload times, one of them
large, plus a soft-deleted large record; fixture for the search witness. -/
def dbSearch : DB :=
  { files :=
      [{ id := 0, fileHash := [0], size := 1024, refCount := 1, version := 0,
         isDeleted := false, uploadedAt := 100, originalFilename := "small.txt".toList,
         fileType := "txt".toList },
       { id := 1, fileHash := [1], size := 6 * 1024 * 1024, refCount := 1, version := 0,
         isDeleted := false, uploadedAt := 200, originalFilename := "big.pdf".toList,
         fileType := "pdf".toList },
       { id := 2, fileHash := [2], size := 8 * 1024 * 1024, refCount := 2, version := 3,
         isDeleted := false, uploadedAt := 300, originalFilename := "huge.pdf".toList,
         fileType := "pdf".toList },
       { id := 3, fileHash := [3], size := 9 * 1024 * 1024, refCount := 1, version := 1,
         isDeleted := true, uploadedAt := 400, originalFilename := "gone.pdf".toList,
         fileType := "pdf".toList }],
    nextId := 4, clock := 401 }

/-- The min_size = 5 MiB query of the spec test fixture, first page. -/
def pMinSize : SearchParams :=
  { filename := none, file_extension := none,
    min_size := some (5 * 1024 * 1024), max_size := none,
    start_date := none, end_date := none, page := 1, page_size := 20 }

instance (p : SearchParams) : Decidable (ValidParams p) := by
  unfold ValidParams; infer_instance

instance (p : SearchParams) (r : FileRec) : Decidable (MatchesFilters p r) := by
  unfold MatchesFilters; infer_instance

instance (db : DB) : Decidable (IdUnique db) := by
  unfold IdUnique; infer_instance

instance (db : DB) : Decidable (IdsBelow db) := by
  unfold IdsBelow; infer_instance

instance (db : DB) : Decidable (StoreInv db) := by
  unfold StoreInv; infer_instance

theorem hashGo_step (content : List Nat) (failAt : Option Nat)
    (n pos idx : Nat) (acc : List Nat)
    (h1 : failAt ≠ some idx) (h2 : readChunk content pos ≠ []) :
    hashGo content failAt (n + 1) pos idx acc =
      hashGo content failAt n (min (pos + CHUNK_SIZE) content.length)
        (idx + 1) (acc ++ readChunk content pos) := by
  simp [hashGo, h1, h2]

theorem hashGo_none (content : List Nat) :
    ∀ fuel pos idx acc, content.length - pos < fuel →
      (hashGo content none fuel pos idx acc).1 =
        Except.ok (acc ++ content.drop pos) := by
  intro fuel
  induction fuel with
  | zero => intro pos idx acc h; omega
  | succ n ih =>
    intro pos idx acc h
    by_cases hc : readChunk content pos = []
    · have hdrop : content.drop pos = [] := by
        rcases (List.take_eq_nil_iff).mp hc with h1 | h1
        · exact absurd h1 (by decide)
        · exact h1
      simp [hashGo, hc, hdrop]
    · have hpos : pos < content.length := by
        by_contra hno
        have : content.drop pos = [] := List.drop_eq_nil_of_le (by omega)
        simp [readChunk, this] at hc
      have hlt : content.length - min (pos + CHUNK_SIZE) content.length < n := by
        have hch : 0 < CHUNK_SIZE := by decide
        omega
      have hrec := ih (min (pos + CHUNK_SIZE) content.length) (idx + 1)
        (acc ++ readChunk content pos) hlt
      have hjoin : (acc ++ readChunk content pos) ++
          content.drop (min (pos + CHUNK_SIZE) content.length) =
          acc ++ content.drop pos := by
        rw [List.append_assoc]
        congr 1
        have hmin : content.drop (min (pos + CHUNK_SIZE) content.length) =
            content.drop (pos + CHUNK_SIZE) := by
          rcases Nat.le_total (pos + CHUNK_SIZE) content.length with hle | hle
          · rw [Nat.min_eq_left hle]
          · rw [Nat.min_eq_right hle, List.drop_length,
              List.drop_eq_nil_of_le hle]
        rw [hmin, readChunk]
        have hdd : content.drop (pos + CHUNK_SIZE) =
            (content.drop pos).drop CHUNK_SIZE := by
          rw [List.drop_drop, Nat.add_comm]
        rw [hdd, List.take_append_drop]
      rw [hashGo_step content none n pos idx acc (by simp) hc, hrec, hjoin]

/-- The digest of the non-failing path is the whole content: the code seeks
to position 0 before reading, so the digest never depends on the current
position. -/
theorem digestOf_eq (s : UploadStream) : digestOf s = s.content := by
  unfold digestOf compute_hash
  rw [hashGo_none s.content (s.content.length + 1) 0 0 [] (by omega)]
  simp

/-- compute_hash restores the stream exactly (position, content, size), on
the failing path as well as the successful one: the seek back to start_pos
sits in a finally block. -/
theorem compute_hash_restores (s : UploadStream) (failAt : Option Nat) :
    (compute_hash s failAt).2 = s := rfl

theorem foldl_add_map (f : FileRec → Nat) :
    ∀ (l : List FileRec) (a : Nat),
      l.foldl (fun acc r => acc + f r) a = a + (l.map f).sum := by
  intro l
  induction l with
  | nil => intro a; simp
  | cons x t ih => intro a; simp [ih]; omega

theorem roundHalfEven_eq_of (q : ℚ) (f : ℤ) (hlo : (f : ℚ) ≤ q)
    (hhi : q < f + 1) (hr : 1/2 < q - f) : roundHalfEven q = f + 1 := by
  have hf : ⌊q⌋ = f := Int.floor_eq_iff.mpr ⟨hlo, hhi⟩
  unfold roundHalfEven
  rw [hf, if_neg (not_lt.mpr (le_of_lt hr)), if_pos hr]

theorem round2_zero : round2 0 = 0 := by
  unfold round2 roundHalfEven
  norm_num

theorem round2_if (c : Prop) [Decidable c] (x : ℚ) :
    round2 (if c then 0 else x) = if c then 0 else round2 x := by
  split_ifs with h
  · exact round2_zero
  · rfl

theorem round2_200div3 : round2 ((200 : ℚ) / 3) = 6667 / 100 := by
  have h1 : roundHalfEven ((200 : ℚ) / 3 * 100) = 6667 := by
    have h2 := roundHalfEven_eq_of ((200 : ℚ) / 3 * 100) 6666
      (by norm_num) (by norm_num) (by norm_num)
    norm_num at h2 ⊢
    exact h2
  unfold round2
  rw [h1]
  norm_num

theorem increment_no_cache (db : DB) (pk memVer : Nat) :
    ((increment_ref_count db pk memVer).2).filter isCacheEvent = [] := by
  simp only [increment_ref_count]
  split_ifs <;> rfl

theorem decrement_no_cache (db : DB) (pk memVer : Nat) :
    ((decrement_ref_count db pk memVer).2).filter isCacheEvent = [] := by
  simp only [decrement_ref_count]
  rcases hf : findByPk db pk with _ | obj <;> simp only [hf] <;> try rfl
  split_ifs <;> rfl

theorem upload_no_cache (db : DB) (s : UploadStream) (fn ft : List Char) :
    ((upload_file db s fn ft).2.2).filter isCacheEvent = [] := by
  simp only [upload_file]
  split
  · rcases hfa : findActiveByHash db (digestOf s) with _ | ex <;> simp only [hfa]
    · simp only [List.filter_append]
      split_ifs <;> rfl
    · rcases hinc : increment_ref_count db ex.id ex.version with ⟨res, ev⟩
      have hev : ev.filter isCacheEvent = [] := by
        have h0 := increment_no_cache db ex.id ex.version
        rw [hinc] at h0
        exact h0
      cases res <;> simp only [hinc, List.filter_append, hev] <;>
        (split_ifs <;> rfl)
  · simp only [List.filter_append]
    split_ifs <;> rfl

theorem delete_no_cache (db : DB) (pk : Nat) :
    ((delete_file db pk).2.2).filter isCacheEvent = [] := by
  simp only [delete_file]
  rcases hf : findActiveByPk db pk with _ | f <;> simp only [hf] <;> try rfl
  rcases hdec : decrement_ref_count db f.id f.version with ⟨res, ev⟩
  have hev : ev.filter isCacheEvent = [] := by
    have h0 := decrement_no_cache db f.id f.version
    rw [hdec] at h0
    exact h0
  cases res <;> simp [List.filter_cons, hev, isCacheEvent]

theorem find?_id_of_mem :
    ∀ (files : List FileRec), files.Pairwise (fun a b => a.id ≠ b.id) →
      ∀ f : FileRec, f ∈ files →
        files.find? (fun r => decide (r.id = f.id)) = some f := by
  intro files
  induction files with
  | nil => intro _ f hmem; cases hmem
  | cons a t ih =>
    intro hp f hmem
    rw [List.pairwise_cons] at hp
    rcases List.mem_cons.mp hmem with rfl | hmem'
    · rw [List.find?_cons_of_pos _ (by simp)]
    · have hne : a.id ≠ f.id := hp.1 f hmem'
      rw [List.find?_cons_of_neg _ (by simp [hne])]
      exact ih hp.2 f hmem'

theorem find?_id_updateWhere :
    ∀ (files : List FileRec), files.Pairwise (fun a b => a.id ≠ b.id) →
      ∀ (f : FileRec) (v : Nat) (g : FileRec → FileRec),
        (∀ r, (g r).id = r.id) → f ∈ files →
        ((updateWhere files f.id v g).1).find? (fun r => decide (r.id = f.id)) =
          some (if f.version = v then g f else f) := by
  intro files
  induction files with
  | nil => intro _ f v g _ hmem; cases hmem
  | cons a t ih =>
    intro hp f v g hgid hmem
    rw [List.pairwise_cons] at hp
    show ((a :: t).map (fun r => if r.id = f.id ∧ r.version = v then g r else r)).find?
      (fun r => decide (r.id = f.id)) = _
    rw [List.map_cons]
    rcases List.mem_cons.mp hmem with rfl | hmem'
    · by_cases hv : f.version = v
      · rw [if_pos ⟨rfl, hv⟩, List.find?_cons_of_pos _ (by simp [hgid]), if_pos hv]
      · rw [if_neg (fun hc => hv hc.2), List.find?_cons_of_pos _ (by simp), if_neg hv]
    · have hne : a.id ≠ f.id := hp.1 f hmem'
      rw [if_neg (fun hc => hne hc.1), List.find?_cons_of_neg _ (by simp [hne])]
      exact ih hp.2 f v g hgid hmem'

theorem updateWhere_count_ne (files : List FileRec) (pk v : Nat)
    (g : FileRec → FileRec) (f : FileRec) (hmem : f ∈ files)
    (hid : f.id = pk) (hv : f.version = v) :
    (updateWhere files pk v g).2 ≠ 0 := by
  show (files.filter (fun r => decide (r.id = pk ∧ r.version = v))).length ≠ 0
  intro hc
  rw [List.length_eq_zero, List.filter_eq_nil_iff] at hc
  exact hc f hmem (by simp [hid, hv])

theorem findActiveByHash_spec (db : DB) (h : List Nat) (ex : FileRec)
    (hfa : findActiveByHash db h = some ex) :
    ex ∈ db.files ∧ ex.fileHash = h ∧ ex.isDeleted = false := by
  unfold findActiveByHash at hfa
  have hmem := List.mem_of_find?_eq_some hfa
  have hprop := List.find?_some hfa
  simp only [decide_eq_true_eq] at hprop
  exact ⟨hmem, hprop.1, hprop.2⟩

theorem findActiveByPk_spec (db : DB) (pk : Nat) (f : FileRec)
    (hfa : findActiveByPk db pk = some f) :
    f ∈ db.files ∧ f.id = pk ∧ f.isDeleted = false := by
  unfold findActiveByPk at hfa
  have hmem := List.mem_of_find?_eq_some hfa
  have hprop := List.find?_some hfa
  simp only [decide_eq_true_eq] at hprop
  exact ⟨hmem, hprop.1, hprop.2⟩

theorem upload_fresh (db : DB) (s : UploadStream) (fn ft : List Char)
    (hfresh : ∀ r ∈ db.files, r.fileHash ≠ digestOf s) :
    upload_file db s fn ft =
      (Except.ok (newRecord db (digestOf s) s.size fn ft, true),
       { files := db.files ++ [newRecord db (digestOf s) s.size fn ft],
         nextId := db.nextId + 1, clock := db.clock + 1 },
       [Event.dbExistsQuery, Event.blobWrite, Event.dbInsert]) := by
  have hne : ¬ ∃ r ∈ db.files, r.fileHash = digestOf s := by
    rintro ⟨r, hr, he⟩
    exact hfresh r hr he
  have hfil : db.files.filter
      (fun r => decide (r.fileHash = digestOf s ∧ r.isDeleted = false)) = [] := by
    rw [List.filter_eq_nil_iff]
    intro r hr
    simp only [decide_eq_true_eq, not_and]
    intro hh
    exact absurd hh (hfresh r hr)
  simp only [upload_file]
  rw [dif_neg hne, if_neg (by rw [hfil]; simp)]
  rfl

theorem upload_dup_attach (db : DB) (s : UploadStream) (fn ft : List Char)
    (hp : IdUnique db) (ex : FileRec)
    (hfa : findActiveByHash db (digestOf s) = some ex) :
    (upload_file db s fn ft).1 = Except.ok (incFun ex, false) ∧
    (upload_file db s fn ft).2.1 =
      { db with files := (updateWhere db.files ex.id ex.version incFun).1 } := by
  obtain ⟨hmem, hhash, hact⟩ := findActiveByHash_spec db (digestOf s) ex hfa
  have hdup : ∃ r ∈ db.files, r.fileHash = digestOf s := ⟨ex, hmem, hhash⟩
  have hcnt : (updateWhere db.files ex.id ex.version incFun).2 ≠ 0 :=
    updateWhere_count_ne db.files ex.id ex.version incFun ex hmem rfl rfl
  have hinc : increment_ref_count db ex.id ex.version =
      (Except.ok { db with files := (updateWhere db.files ex.id ex.version incFun).1 },
       [Event.casUpdate ex.id ex.version, Event.dbRefresh]) := by
    simp only [increment_ref_count]
    rw [if_neg hcnt]
  have hfind : findByPk
      { db with files := (updateWhere db.files ex.id ex.version incFun).1 } ex.id =
      some (incFun ex) := by
    show ((updateWhere db.files ex.id ex.version incFun).1).find?
      (fun r => decide (r.id = ex.id)) = _
    have hw := find?_id_updateWhere db.files hp ex ex.version incFun (fun _ => rfl) hmem
    rw [if_pos rfl] at hw
    exact hw
  constructor
  · simp only [upload_file]
    rw [dif_pos hdup]
    simp only [hfa, hinc, hfind, Option.getD_some]
  · simp only [upload_file]
    rw [dif_pos hdup]
    simp only [hfa, hinc]

/-- C1: uploading the same byte sequence twice sequentially (the empty
sequence included) yields the same record id both times, reference count 1
after the first call and 2 after the second, with is_new true then false.
The second call goes through the IntegrityError fallback: its INSERT hits
the unique hash constraint and it attaches to the record the first call
created. -/
theorem upload_twice_dedup (db : DB) (s : UploadStream) (fn ft : List Char)
    (h1 : IdUnique db) (h2 : IdsBelow db)
    (h3 : ∀ r ∈ db.files, r.fileHash ≠ s.content) :
    UploadTwice db s fn ft := by
  have hfresh : ∀ r ∈ db.files, r.fileHash ≠ digestOf s := by
    intro r hr
    rw [digestOf_eq]
    exact h3 r hr
  have hup1 := upload_fresh db s fn ft hfresh
  have hpair1 : IdUnique (DB.mk
      (db.files ++ [newRecord db (digestOf s) s.size fn ft])
      (db.nextId + 1) (db.clock + 1)) := by
    show (db.files ++ [newRecord db (digestOf s) s.size fn ft]).Pairwise _
    rw [List.pairwise_append]
    refine ⟨h1, List.pairwise_singleton _ _, ?_⟩
    intro a ha b hb
    rw [List.mem_singleton] at hb
    subst hb
    exact Nat.ne_of_lt (h2 a ha)
  have hfa1 : findActiveByHash (DB.mk
      (db.files ++ [newRecord db (digestOf s) s.size fn ft])
      (db.nextId + 1) (db.clock + 1)) (digestOf s) =
      some (newRecord db (digestOf s) s.size fn ft) := by
    show (db.files ++ [newRecord db (digestOf s) s.size fn ft]).find?
      (fun r => decide (r.fileHash = digestOf s ∧ r.isDeleted = false)) = _
    rw [List.find?_append]
    have hnone : db.files.find?
        (fun r => decide (r.fileHash = digestOf s ∧ r.isDeleted = false)) = none := by
      rw [List.find?_eq_none]
      intro x hx
      simp [hfresh x hx]
    rw [hnone, Option.none_or, List.find?_cons_of_pos _ (by simp [newRecord])]
  obtain ⟨ha, _⟩ := upload_dup_attach (DB.mk
      (db.files ++ [newRecord db (digestOf s) s.size fn ft])
      (db.nextId + 1) (db.clock + 1)) s fn ft hpair1
      (newRecord db (digestOf s) s.size fn ft) hfa1
  refine ⟨newRecord db (digestOf s) s.size fn ft,
    incFun (newRecord db (digestOf s) s.size fn ft), ?_, rfl, ?_, rfl, rfl⟩
  · rw [hup1]
  · have hmid : (upload_file db s fn ft).2.1 = DB.mk
        (db.files ++ [newRecord db (digestOf s) s.size fn ft])
        (db.nextId + 1) (db.clock + 1) := by
      rw [hup1]
    rw [hmid]
    exact ha

theorem upload_twice_dedup_witness :
    IdUnique emptyDB ∧ IdsBelow emptyDB ∧
    (∀ r ∈ emptyDB.files, r.fileHash ≠ UploadStream.content ⟨[], 0, 0⟩) ∧
    UploadTwice emptyDB ⟨[], 0, 0⟩ "a.txt".toList "txt".toList :=
  ⟨by decide, by decide, by decide,
    upload_twice_dedup emptyDB ⟨[], 0, 0⟩ "a.txt".toList "txt".toList
      (by decide) (by decide) (by decide)⟩

/-- C3: when the INSERT of upload_file fails on the duplicate-hash unique
constraint, the orchestrator re-reads the active record by hash: if one
exists it attaches a reference and returns it with is_new false; if none
exists (for example because the only record with that hash is
soft-deleted) it surfaces FileIntegrityError and leaves the store
untouched — so re-uploading content whose sole prior record is
soft-deleted always fails with the integrity error. -/
theorem duplicate_create_fallback (db : DB) (s : UploadStream) (fn ft : List Char)
    (h1 : IdUnique db) (h2 : ∃ r ∈ db.files, r.fileHash = digestOf s) :
    RaceFallback db s fn ft := by
  constructor
  · intro hnone
    constructor
    · simp only [upload_file]
      rw [dif_pos h2]
      simp only [hnone]
    · simp only [upload_file]
      rw [dif_pos h2]
      simp only [hnone]
  · intro ex hfa
    obtain ⟨ha, _⟩ := upload_dup_attach db s fn ft h1 ex hfa
    exact ⟨incFun ex, ha, rfl, rfl⟩

theorem duplicate_create_fallback_witness :
    IdUnique dbTombstone ∧
    (∃ r ∈ dbTombstone.files, r.fileHash = digestOf sTombstone) ∧
    RaceFallback dbTombstone sTombstone "b.txt".toList "txt".toList :=
  ⟨by decide, by decide,
    duplicate_create_fallback dbTombstone sTombstone "b.txt".toList "txt".toList
      (by decide) (by decide)⟩

theorem decrement_found (db : DB) (h1 : IdUnique db) (f : FileRec)
    (hmem : f ∈ db.files) :
    (1 < f.refCount →
      decrement_ref_count db f.id f.version =
        (Except.ok { db with files := (updateWhere db.files f.id f.version decFun).1 },
         [Event.rowLock f.id, Event.casUpdate f.id f.version, Event.dbRefresh])) ∧
    (f.refCount ≤ 1 →
      decrement_ref_count db f.id f.version =
        (Except.ok { db with files :=
            (updateWhere db.files f.id f.version softDeleteFun).1 },
         [Event.rowLock f.id, Event.casUpdate f.id f.version, Event.dbRefresh])) := by
  have hfb : findByPk db f.id = some f := by
    show db.files.find? (fun r => decide (r.id = f.id)) = some f
    exact find?_id_of_mem db.files h1 f hmem
  constructor
  · intro hrc
    simp only [decrement_ref_count, hfb]
    rw [if_pos hrc,
      if_neg (updateWhere_count_ne db.files f.id f.version decFun f hmem rfl rfl)]
  · intro hrc
    simp only [decrement_ref_count, hfb]
    rw [if_neg (by omega),
      if_neg (updateWhere_count_ne db.files f.id f.version softDeleteFun f hmem rfl rfl)]

/-- C10: delete_file raises FileMissingError exactly when no active record
with the given id exists, leaving every record unchanged in that case;
otherwise it detaches one reference and returns true precisely when the
record became soft-deleted (the ref_count less-or-equal 1 branch), false
when it was merely decremented. -/
theorem delete_file_contract (db : DB) (pk : Nat) (h1 : IdUnique db) :
    DeleteContract db pk := by
  constructor
  · intro hnone
    simp only [delete_file, hnone]
  · intro f hfa
    obtain ⟨hmem, hid, hact⟩ := findActiveByPk_spec db pk f hfa
    have hdf := decrement_found db h1 f hmem
    have hfindDec : findByPk
        { db with files := (updateWhere db.files f.id f.version decFun).1 } pk =
        some (decFun f) := by
      rw [← hid]
      show ((updateWhere db.files f.id f.version decFun).1).find?
        (fun r => decide (r.id = f.id)) = _
      have hw := find?_id_updateWhere db.files h1 f f.version decFun (fun _ => rfl) hmem
      rw [if_pos rfl] at hw
      exact hw
    have hfindSoft : findByPk
        { db with files := (updateWhere db.files f.id f.version softDeleteFun).1 } pk =
        some (softDeleteFun f) := by
      rw [← hid]
      show ((updateWhere db.files f.id f.version softDeleteFun).1).find?
        (fun r => decide (r.id = f.id)) = _
      have hw := find?_id_updateWhere db.files h1 f f.version softDeleteFun
        (fun _ => rfl) hmem
      rw [if_pos rfl] at hw
      exact hw
    constructor
    · intro hrc
      have hdec := hdf.1 hrc
      constructor
      · show (delete_file db pk).1 = _
        simp only [delete_file, hfa, hdec, hfindSoft, hfindDec, Option.getD_some]
        simp [decFun, hact]
      · show findByPk (delete_file db pk).2.1 pk = _
        simp only [delete_file, hfa, hdec]
        exact hfindDec
    · intro hrc
      have hdec := hdf.2 hrc
      constructor
      · show (delete_file db pk).1 = _
        simp only [delete_file, hfa, hdec, hfindSoft, Option.getD_some]
        simp [softDeleteFun]
      · show findByPk (delete_file db pk).2.1 pk = _
        simp only [delete_file, hfa, hdec]
        exact hfindSoft

theorem delete_file_contract_witness :
    IdUnique dbOne ∧ DeleteContract dbOne 0 :=
  ⟨by decide, delete_file_contract dbOne 0 (by decide)⟩

theorem StoreInv_update (db : DB) (hinv : StoreInv db) (pk v : Nat)
    (g : FileRec → FileRec) (hgid : ∀ r, (g r).id = r.id)
    (hg : ∀ r ∈ db.files, r.id = pk → r.version = v →
      (1 ≤ (g r).refCount ∧ ((g r).isDeleted = true → (g r).refCount = 1))) :
    StoreInv { db with files := (updateWhere db.files pk v g).1 } := by
  obtain ⟨hu, hb, hrc⟩ := hinv
  refine ⟨?_, ?_, ?_⟩
  · show (db.files.map
      (fun r => if r.id = pk ∧ r.version = v then g r else r)).Pairwise _
    rw [List.pairwise_map]
    refine hu.imp ?_
    intro a b hab
    have hia : (if a.id = pk ∧ a.version = v then g a else a).id = a.id := by
      split
      · exact hgid a
      · rfl
    have hib : (if b.id = pk ∧ b.version = v then g b else b).id = b.id := by
      split
      · exact hgid b
      · rfl
    rw [hia, hib]
    exact hab
  · intro r' hr'
    show r'.id < db.nextId
    rcases List.mem_map.mp hr' with ⟨r, hr, rfl⟩
    have hir : (if r.id = pk ∧ r.version = v then g r else r).id = r.id := by
      split
      · exact hgid r
      · rfl
    rw [hir]
    exact hb r hr
  · intro r' hr'
    rcases List.mem_map.mp hr' with ⟨r, hr, rfl⟩
    by_cases hc : r.id = pk ∧ r.version = v
    · rw [if_pos hc]
      exact hg r hr hc.1 hc.2
    · rw [if_neg hc]
      exact hrc r hr

theorem eq_of_mem_of_id_eq (files : List FileRec)
    (hp : files.Pairwise (fun a b => a.id ≠ b.id)) {a b : FileRec}
    (ha : a ∈ files) (hb : b ∈ files) (hid : a.id = b.id) : a = b := by
  by_contra hne
  exact (List.Pairwise.forall (fun _ _ h => h.symm) hp ha hb hne) hid

theorem upload_preserves_inv (db : DB) (s : UploadStream) (fn ft : List Char)
    (hinv : StoreInv db) : StoreInv (upload_file db s fn ft).2.1 := by
  by_cases hdup : ∃ r ∈ db.files, r.fileHash = digestOf s
  · rcases hfa : findActiveByHash db (digestOf s) with _ | ex
    · have hsame : (upload_file db s fn ft).2.1 = db := by
        simp only [upload_file]
        rw [dif_pos hdup]
        simp only [hfa]
      rw [hsame]
      exact hinv
    · obtain ⟨hmem, hhash, hact⟩ := findActiveByHash_spec db (digestOf s) ex hfa
      obtain ⟨_, hb2⟩ := upload_dup_attach db s fn ft hinv.1 ex hfa
      rw [hb2]
      refine StoreInv_update db hinv ex.id ex.version incFun (fun _ => rfl) ?_
      intro r hr hid _
      have hre : r = ex := eq_of_mem_of_id_eq db.files hinv.1 hr hmem hid
      subst hre
      refine ⟨by simp [incFun], fun habs => ?_⟩
      have : r.isDeleted = true := habs
      rw [hact] at this
      cases this
  · have hfresh : ∀ r ∈ db.files, r.fileHash ≠ digestOf s :=
      fun r hr he => hdup ⟨r, hr, he⟩
    rw [upload_fresh db s fn ft hfresh]
    obtain ⟨hu, hb, hrc⟩ := hinv
    refine ⟨?_, ?_, ?_⟩
    · show (db.files ++ [newRecord db (digestOf s) s.size fn ft]).Pairwise _
      rw [List.pairwise_append]
      refine ⟨hu, List.pairwise_singleton _ _, ?_⟩
      intro a ha b hb'
      rw [List.mem_singleton] at hb'
      subst hb'
      exact Nat.ne_of_lt (hb a ha)
    · intro r hr
      rcases List.mem_append.mp hr with h | h
      · exact Nat.lt_succ_of_lt (hb r h)
      · rw [List.mem_singleton] at h
        subst h
        exact Nat.lt_succ_self _
    · intro r hr
      rcases List.mem_append.mp hr with h | h
      · exact hrc r h
      · rw [List.mem_singleton] at h
        subst h
        exact ⟨by simp [newRecord], fun habs => by simp [newRecord] at habs⟩

theorem delete_preserves_inv (db : DB) (pk : Nat)
    (hinv : StoreInv db) : StoreInv (delete_file db pk).2.1 := by
  rcases hfa : findActiveByPk db pk with _ | f
  · have hsame : (delete_file db pk).2.1 = db := by
      simp only [delete_file, hfa]
    rw [hsame]
    exact hinv
  · obtain ⟨hmem, hid, hact⟩ := findActiveByPk_spec db pk f hfa
    have hdf := decrement_found db hinv.1 f hmem
    by_cases hrc1 : 1 < f.refCount
    · have hdec := hdf.1 hrc1
      have hsame : (delete_file db pk).2.1 =
          { db with files := (updateWhere db.files f.id f.version decFun).1 } := by
        simp only [delete_file, hfa, hdec]
      rw [hsame]
      refine StoreInv_update db hinv f.id f.version decFun (fun _ => rfl) ?_
      intro r hr hid' _
      have hre : r = f := eq_of_mem_of_id_eq db.files hinv.1 hr hmem hid'
      subst hre
      refine ⟨by simp [decFun]; omega, fun habs => ?_⟩
      have habs' : r.isDeleted = true := habs
      rw [hact] at habs'
      cases habs'
    · have hdec := hdf.2 (by omega)
      have hsame : (delete_file db pk).2.1 =
          { db with files := (updateWhere db.files f.id f.version softDeleteFun).1 } := by
        simp only [delete_file, hfa, hdec]
      rw [hsame]
      refine StoreInv_update db hinv f.id f.version softDeleteFun (fun _ => rfl) ?_
      intro r hr hid' _
      have hre : r = f := eq_of_mem_of_id_eq db.files hinv.1 hr hmem hid'
      subst hre
      have h1r := (hinv.2.2 r hr).1
      refine ⟨by simp [softDeleteFun]; omega, fun _ => ?_⟩
      show r.refCount = 1
      omega

theorem StoreInv_runOps : ∀ ops : List Op, StoreInv (runOps ops) := by
  have haux : ∀ (l : List Op) (db : DB), StoreInv db → StoreInv (l.foldl applyOp db) := by
    intro l
    induction l with
    | nil => intro db h; exact h
    | cons op t ih =>
      intro db h
      rw [List.foldl_cons]
      refine ih _ ?_
      cases op with
      | upload c sz fn ft => exact upload_preserves_inv db ⟨c, sz, 0⟩ fn ft h
      | del pk => exact delete_preserves_inv db pk h
  intro ops
  exact haux ops emptyDB (by decide)

/-- C2 (amended): in every state reachable by upload_file and delete_file
from the empty store, every record keeps reference_count at least 1 (a
reference count of 0 never occurs), and a soft-deleted record retains the
reference_count 1 it died with; detach on a record whose reference count
is not greater than 1 performs one atomic update setting is_deleted = true
and bumping version, leaving reference_count unchanged. -/
theorem refcount_soft_delete_amended :
    (∀ ops : List Op, ∀ r ∈ (runOps ops).files,
      1 ≤ r.refCount ∧ (r.isDeleted = true → r.refCount = 1)) ∧
    (∀ (db : DB) (pk : Nat) (f : FileRec), IdUnique db → findByPk db pk = some f →
      f.refCount ≤ 1 →
      decrement_ref_count db pk f.version =
        (Except.ok { db with files :=
            (updateWhere db.files pk f.version softDeleteFun).1 },
         [Event.rowLock pk, Event.casUpdate pk f.version, Event.dbRefresh]) ∧
      findByPk { db with files :=
          (updateWhere db.files pk f.version softDeleteFun).1 } pk =
        some { f with isDeleted := true, version := f.version + 1 }) := by
  constructor
  · intro ops r hr
    exact (StoreInv_runOps ops).2.2 r hr
  · intro db pk f hu hfb hrc
    have hfb' : db.files.find? (fun r => decide (r.id = pk)) = some f := hfb
    have hmem : f ∈ db.files := List.mem_of_find?_eq_some hfb'
    have hid : f.id = pk := by
      have := List.find?_some hfb'
      simpa using this
    subst hid
    have hdec := (decrement_found db hu f hmem).2 hrc
    refine ⟨hdec, ?_⟩
    show ((updateWhere db.files f.id f.version softDeleteFun).1).find?
      (fun r => decide (r.id = f.id)) = _
    have hw := find?_id_updateWhere db.files hu f f.version softDeleteFun
      (fun _ => rfl) hmem
    rw [if_pos rfl] at hw
    exact hw

/-- C2 counterexample: upload one byte sequence then delete it: the
reachable store holds a record with is_deleted = true and reference_count
1, so reference_count == 0 if and only if is_deleted == true is false on
the code (the soft-delete branch never writes reference_count = 0). -/
theorem softdelete_keeps_refcount_counterexample :
    ((runOps opsOneShot).files.map (fun r => (r.refCount, r.isDeleted))) = [(1, true)] ∧
    ¬ (∀ r ∈ (runOps opsOneShot).files, (r.refCount = 0 ↔ r.isDeleted = true)) := by
  decide

/-- C7 (amended): the content hasher reads the stream in fixed-size chunks
from the BEGINNING of the stream (it seeks to position 0 first) to
end-of-stream, and on every exit path, success or failure, hands back a
stream whose read position, content and size are exactly those of the
input; the successful digest covers the whole content. -/
theorem hasher_reads_whole_and_restores :
    ∀ (s : UploadStream) (failAt : Option Nat), HasherContract s failAt := by
  intro s failAt
  refine ⟨rfl, ?_⟩
  show (compute_hash s none).1 = Except.ok s.content
  unfold compute_hash
  rw [hashGo_none s.content (s.content.length + 1) 0 0 [] (by omega)]
  simp

/-- C7 counterexample: on a stream positioned past the start, the code
digests the whole content, not the suffix from the current position that
the claim describes: at content [7, 8] and position 1 the digest is built
from [7, 8], while reading from the current position would give [8]. -/
theorem hasher_position_counterexample :
    (compute_hash sMidPos none).1 = Except.ok [7, 8] ∧
    computeHashSpec sMidPos = [8] ∧
    (compute_hash sMidPos none).1 ≠ Except.ok (computeHashSpec sMidPos) := by
  decide

/-- C4 (amended): on a version mismatch during attach the reference counter
makes exactly one compare-and-update attempt and surfaces the concurrent
modification error to the caller; the conflict is never coerced into
success. -/
theorem attach_mismatch_single_attempt (db : DB) (pk memVer : Nat)
    (h : ∀ r ∈ db.files, ¬(r.id = pk ∧ r.version = memVer)) :
    increment_ref_count db pk memVer =
      (Except.error ModelErr.concurrent, [Event.casUpdate pk memVer]) ∧
    (increment_ref_count db pk memVer).2.countP isCasEvent = 1 := by
  have hz : (updateWhere db.files pk memVer incFun).2 = 0 := by
    unfold updateWhere
    simp only [List.length_eq_zero, List.filter_eq_nil_iff, decide_eq_true_eq]
    exact h
  have heq : increment_ref_count db pk memVer =
      (Except.error ModelErr.concurrent, [Event.casUpdate pk memVer]) := by
    unfold increment_ref_count
    simp [hz]
  exact ⟨heq, by rw [heq]; rfl⟩

theorem attach_mismatch_single_attempt_witness :
    (∀ r ∈ dbStale.files, ¬(r.id = 0 ∧ r.version = 3)) ∧
    (increment_ref_count dbStale 0 3 =
      (Except.error ModelErr.concurrent, [Event.casUpdate 0 3]) ∧
     (increment_ref_count dbStale 0 3).2.countP isCasEvent = 1) :=
  ⟨by decide, attach_mismatch_single_attempt dbStale 0 3 (by decide)⟩

/-- C4 counterexample: at a store whose record is at version 5 while the
caller holds version 3, the attach path performs exactly one
compare-and-update attempt before surfacing the error, so the claimed
more-than-one-attempt retry loop does not exist. -/
theorem attach_retry_counterexample :
    (increment_ref_count dbStale 0 3).1 = Except.error ModelErr.concurrent ∧
    (increment_ref_count dbStale 0 3).2.countP isCasEvent = 1 ∧
    ¬ 2 ≤ (increment_ref_count dbStale 0 3).2.countP isCasEvent := by
  decide

/-- C5: evaluating upload_file at a stream whose declared size 1124
differs from the stored size 1024 of the active record with the identical
hash: the code attaches a reference (ref_count 2, is_new false) instead of
failing with FileIntegrityError, contradicting both the spec and the
repository's own test for a size-mismatch integrity failure. -/
theorem upload_size_mismatch_attaches :
    sMismatch.size = 1124 ∧
    dbSize.files.map FileRec.size = [1024] ∧
    (upload_file dbSize sMismatch "new.bin".toList "bin".toList).1 =
      Except.ok (⟨0, [1, 2, 3], 1024, 2, 1, false, 0,
        "old.bin".toList, "bin".toList⟩, false) := by
  decide

/-- C6: the services have no cache layer at all.  Every search call issues
the count query and the page fetch against the record store (so an
identical repeated query hits the store again, never a cache); the storage
summary takes no useCache argument and recomputes its aggregate on every
call; and no upload or delete performs any cache get, set or invalidate. -/
theorem no_cache_layer_in_code :
    (∀ db p, (search db p).2 = [Event.dbCount, Event.dbFetchPage] ∧
      (search db p).2.filter isCacheEvent = []) ∧
    (∀ db, (get_storage_summary db).2 = [Event.dbAggregate] ∧
      (get_storage_summary db).2.filter isCacheEvent = []) ∧
    (∀ db s fn ft, ((upload_file db s fn ft).2.2).filter isCacheEvent = []) ∧
    (∀ db pk, ((delete_file db pk).2.2).filter isCacheEvent = []) :=
  ⟨fun _ _ => ⟨rfl, rfl⟩, fun _ => ⟨rfl, rfl⟩, upload_no_cache, delete_no_cache⟩

/-- C8 (amended): over active records the summary returns total_file_size
as the sum of size times ref_count, deduplicated_storage as the sum of
size, storage_saved as their difference, and savings_percentage as
storage_saved / total_file_size * 100 ROUNDED TO TWO DECIMALS (round half
to even, the rounding of the Python builtin), with 0 substituted when the
total is 0; on an empty store every field is 0 and no division by zero
occurs. -/
theorem summary_contract : ∀ db : DB, SummaryContract db := by
  intro db
  unfold SummaryContract
  refine ⟨?_, ?_, rfl, ?_, ?_⟩
  · show (get_storage_summary db).1.total_file_size = _
    unfold get_storage_summary
    simp only
    rw [foldl_add_map (fun r => r.size * r.refCount) (activeFiles db) 0]
    simp
  · show (get_storage_summary db).1.deduplicated_storage = _
    unfold get_storage_summary
    simp only
    rw [foldl_add_map (fun r => r.size) (activeFiles db) 0]
    simp
  · have hrfl : (get_storage_summary db).1.savings_percentage =
        round2 (if (get_storage_summary db).1.total_file_size = 0 then 0
          else ((get_storage_summary db).1.storage_saved : ℚ) /
            ((get_storage_summary db).1.total_file_size : ℚ) * 100) := rfl
    rw [hrfl, round2_if]
  · intro h
    have h0 : activeFiles db = [] := by unfold activeFiles; rw [h]; rfl
    show (get_storage_summary db).1 = _
    unfold get_storage_summary
    rw [h0]
    simp [round2_zero]

/-- C8 counterexample: on a store with one active record of size 1 shared
by 3 owners the code reports 66.67 while the claimed exact formula
storage_saved / total_file_size * 100 gives 200/3, so the claim as stated
(without rounding) is false. -/
theorem summary_rounding_counterexample :
    (get_storage_summary dbThirds).1.savings_percentage = 6667 / 100 ∧
    ((get_storage_summary dbThirds).1.storage_saved : ℚ) /
        ((get_storage_summary dbThirds).1.total_file_size : ℚ) * 100 = 200 / 3 ∧
    (get_storage_summary dbThirds).1.savings_percentage ≠
      ((get_storage_summary dbThirds).1.storage_saved : ℚ) /
        ((get_storage_summary dbThirds).1.total_file_size : ℚ) * 100 := by
  have hsaved : (get_storage_summary dbThirds).1.storage_saved = 2 := by decide
  have htot : (get_storage_summary dbThirds).1.total_file_size = 3 := by decide
  have h1 : (get_storage_summary dbThirds).1.savings_percentage = 6667 / 100 := by
    simp [get_storage_summary, activeFiles, dbThirds]
    norm_num
    exact round2_200div3
  have h2 : ((get_storage_summary dbThirds).1.storage_saved : ℚ) /
      ((get_storage_summary dbThirds).1.total_file_size : ℚ) * 100 = 200 / 3 := by
    rw [hsaved, htot]
    norm_num
  refine ⟨h1, h2, ?_⟩
  rw [h1, h2]
  norm_num

theorem mem_activeFiles (db : DB) (r : FileRec) :
    r ∈ activeFiles db ↔ r ∈ db.files ∧ r.isDeleted = false := by
  simp [activeFiles, List.mem_filter]

theorem mem_filterFilename (p : SearchParams) (l : List FileRec)
    (hv : optAll (fun t => 2 ≤ t.length ∧ stripChars t ≠ []) p.filename) (r : FileRec) :
    r ∈ filterFilename p l ↔ r ∈ l ∧
      optAll (fun t => containsSub (lowerList t) (lowerList r.originalFilename) = true)
        p.filename := by
  cases hf : p.filename with
  | none => simp [filterFilename, hf, optAll]
  | some t =>
    rw [hf] at hv
    have ht : ¬ t = [] := by
      rcases hv with ⟨h2, _⟩
      intro hc
      subst hc
      simp at h2
    simp [filterFilename, hf, ht, optAll, List.mem_filter]

theorem mem_filterByExt (p : SearchParams) (l : List FileRec)
    (hv : optAll (fun e => e ≠ [] ∧ stripChars e ≠ []) p.file_extension) (r : FileRec) :
    r ∈ filterByExt p l ↔ r ∈ l ∧
      optAll (fun e =>
        List.isSuffixOf ('.' :: stripChars (lowerList e)) (lowerList r.originalFilename)
          = true) p.file_extension := by
  cases hf : p.file_extension with
  | none => simp [filterByExt, hf, optAll]
  | some e =>
    rw [hf] at hv
    have he : ¬ e = [] := hv.1
    simp [filterByExt, hf, he, optAll, List.mem_filter]

theorem mem_filterSizes (p : SearchParams) (l : List FileRec) (r : FileRec) :
    r ∈ filterSizes p l ↔ r ∈ l ∧
      optAll (fun m => m ≤ r.size) p.min_size ∧
      optAll (fun mx => r.size ≤ mx) p.max_size := by
  cases hmin : p.min_size <;> cases hmax : p.max_size <;>
    simp [filterSizes, hmin, hmax, optAll, List.mem_filter, and_assoc] <;>
    tauto

theorem mem_filterDates (p : SearchParams) (l : List FileRec) (r : FileRec) :
    r ∈ filterDates p l ↔ r ∈ l ∧
      optAll (fun sd => sd ≤ uploadedDate r) p.start_date ∧
      optAll (fun ed => uploadedDate r ≤ ed) p.end_date := by
  cases hsd : p.start_date <;> cases hed : p.end_date <;>
    simp [filterDates, hsd, hed, optAll, List.mem_filter, and_assoc] <;>
    tauto

theorem mem_queryRecords (db : DB) (p : SearchParams) (hv : ValidParams p)
    (r : FileRec) :
    r ∈ queryRecords db p ↔
      r ∈ db.files ∧ r.isDeleted = false ∧ MatchesFilters p r := by
  obtain ⟨hvf, hve, _, _, _⟩ := hv
  unfold queryRecords MatchesFilters
  rw [mem_filterDates, mem_filterSizes, mem_filterByExt p _ hve,
    mem_filterFilename p _ hvf, mem_activeFiles]
  tauto

/-- C9: for every validated filter set and page, search returns exactly
the active records satisfying the conjunction of the supplied filters
(case-insensitive filename substring, case-insensitive exact extension via
dot-extension suffix, inclusive size range, inclusive upload-date range),
sorted most recently uploaded first, as the 1-indexed page slice of that
ordering, with the page never exceeding page_size and page_size capped at
the configured maximum 100 by validation. -/
theorem search_contract (db : DB) (p : SearchParams) (hv : ValidParams p) :
    SearchContract db p := by
  refine ⟨mem_queryRecords db p hv, List.perm_insertionSort byRecency _,
    rfl, ?_, rfl, ?_, hv.2.2.2.2.2.2, rfl, rfl⟩
  · have hsorted : List.Sorted byRecency
        (List.insertionSort byRecency (queryRecords db p)) :=
      List.sorted_insertionSort byRecency _
    have hsub : List.Sublist
        (((List.insertionSort byRecency (queryRecords db p)).drop
          ((p.page - 1) * p.page_size)).take p.page_size)
        (List.insertionSort byRecency (queryRecords db p)) :=
      (List.take_sublist _ _).trans (List.drop_sublist _ _)
    have hslice := List.Pairwise.sublist hsub hsorted
    show List.Pairwise _ (List.map toItem _)
    rw [List.pairwise_map]
    exact hslice.imp (fun hab => hab)
  · show (List.map toItem _).length ≤ p.page_size
    rw [List.length_map, List.length_take]
    exact min_le_left _ _

theorem search_contract_witness :
    ValidParams pMinSize ∧ SearchContract dbSearch pMinSize :=
  ⟨by decide, search_contract dbSearch pMinSize (by decide)⟩

end FileVault
